import Mathlib

/-!
Shallow embedding of the core of `main.py` (Progress Library Tracker):
cover extraction, entry creation/removal/progress update, identifier
allocation, persistence, and the view's filtering/sorting logic.
Python integers are modelled as `Int` (they are unbounded), Python
strings as `String` (the paths and tags in play are ASCII), floats
produced by `completion_percentage` as exact rationals `ℚ`, and the
JSON database file as an explicit JSON value tree.
-/

namespace PyLibrary

/-- Python `str.lower()` restricted to ASCII data (`Char.toLower`
lowercases exactly the ASCII range, which matches Python on the ASCII
paths and tags this program manipulates). -/
def pyLower (s : String) : String := ⟨s.data.map Char.toLower⟩

/-- Python `s.endswith(suffix)`: suffix test on the character data. -/
def pyEndsWith (s suffix : String) : Bool := suffix.data.isSuffixOf s.data

/-- Python lexicographic string comparison `a <= b`: code points are
compared position by position, and a proper prefix precedes any of its
extensions. -/
def charListLE : List Char → List Char → Bool
  | [], _ => true
  | _ :: _, [] => false
  | c :: cs, d :: ds => if c = d then charListLE cs ds else decide (c < d)

/-- Python string comparison `a <= b` on `String`. -/
def pyStrLE (a b : String) : Bool := charListLE a.data b.data

/-- One fuel-indexed step list for Python `str.replace`: scan left to
right, replacing each non-overlapping occurrence of `old` (non-empty)
by `new`. Fuel is the length of the scanned list, which bounds the
number of scanning steps. -/
def replaceAux (old new : List Char) : ℕ → List Char → List Char
  | _, [] => []
  | 0, s => s
  | Nat.succ fuel, c :: rest =>
    if old.isPrefixOf (c :: rest) then
      new ++ replaceAux old new fuel (List.drop old.length (c :: rest))
    else
      c :: replaceAux old new fuel rest

/-- Python `s.replace(old, new)` for a non-empty `old`, as used in
`extract_cover_image` (`file_path.replace('.epub', '.pdf')`). -/
def pyReplace (s old new : String) : String :=
  ⟨replaceAux old.data new.data s.data.length s.data⟩

/-- Big-endian decimal digit characters of a positive number; the fuel
argument (any bound on the digit count, the number itself suffices)
makes the division recursion structural. -/
def natReprAux : ℕ → ℕ → List Char
  | 0, _ => []
  | fuel + 1, n => if n = 0 then [] else natReprAux fuel (n / 10) ++ [Nat.digitChar (n % 10)]

/-- Decimal rendering of a natural number, as Python `str(int)` /
f-string interpolation produces for non-negative integers. -/
def natRepr (n : ℕ) : String :=
  if n = 0 then "0" else ⟨natReprAux n n⟩

/-- A candidate identifier `f"PRJ{k}"` as generated in
`MainWindow.add_entry` from `random.randint(1, 10000)`. -/
def genCandidate (k : ℕ) : String := "PRJ" ++ natRepr k

/-- The `while any(entry['folder_id'] == folder_id ...)` retry loop of
`MainWindow.add_entry`, driven by a stream `f` of values drawn by
`random.randint(1, 10000)`. The loop in the source is unbounded; `fuel`
bounds how many candidates this model examines, and `none` models a run
in which the loop has not yet found a fresh identifier. -/
def allocFrom (ids : List String) (f : ℕ → ℕ) : ℕ → ℕ → Option String
  | _, 0 => none
  | i, Nat.succ fuel =>
    let cand := genCandidate (f i)
    if cand ∈ ids then allocFrom ids f (i + 1) fuel else some cand

/-- A persisted entry record: the fixed-shape dictionary built in
`MainWindow.add_entry`, with exactly the seven keys of the data model. -/
structure EntryRec where
  name : String
  amount : ℤ
  amount_type : String
  amount_done : ℤ
  tag_task : String
  folder_id : String
  file_path : String
deriving DecidableEq, Repr

/-- The method `Entry.completion_percentage`: `amount_done / amount * 100`
when `amount > 0`, else `0`; Python float division is modelled as exact
rational division. -/
def completion_percentage (e : EntryRec) : ℚ :=
  if 0 < e.amount then ((e.amount_done : ℚ) / (e.amount : ℚ)) * 100 else 0

/-! Cover-derivation pipeline (`convert_epub_to_pdf`, `extract_pdf_cover`,
`extract_cover_image`). The filesystem and the two external collaborators
(`fitz` and `ebook-convert`) are parameters of the model. -/

/-- Outcome of `subprocess.run(['ebook-convert', ...], check=True)`:
the process succeeds, exits non-zero (raising `CalledProcessError`,
which `convert_epub_to_pdf` catches), or cannot be launched at all
(raising `FileNotFoundError`/`OSError`, which nothing catches). -/
inductive ConvOutcome
  | ok
  | exitFail
  | launchFail
deriving DecidableEq, Repr

/-- Environment of the cover pipeline. `docs p` is what `fitz.open(p)`
yields before the EPUB conversion runs: `none` when opening raises
(missing, corrupt or encrypted file), `some pages` a readable document
as its list of page images (a page image is abstracted as a number).
`docsAfterConv` is the same view of the filesystem after the conversion
step has run, and `conv` is the conversion subprocess's outcome. -/
structure CoverEnv where
  docs : String → Option (List ℕ)
  docsAfterConv : String → Option (List ℕ)
  conv : ConvOutcome

/-- The function `extract_pdf_cover`: open the document, load page 0 and
render it; every exception (open failure, zero-page document, render
failure) is caught and mapped to `None`. `List.head?` is page index 0:
`none` exactly when the document has no pages. -/
def extract_pdf_cover (docs : String → Option (List ℕ)) (pdf_path : String) : Option ℕ :=
  match docs pdf_path with
  | none => none
  | some pages => pages.head?

/-- The temporary-PDF path derived in the EPUB branch of
`extract_cover_image`: `file_path.replace('.epub', '.pdf')`, a
case-sensitive textual replacement over the whole path. -/
def epubTempPdfPath (file_path : String) : String :=
  pyReplace file_path ".epub" ".pdf"

/-- The function `extract_cover_image` as a result computation.
`Except.error ()` models an exception escaping to the caller: the only
uncaught exception is `subprocess.run` failing to launch `ebook-convert`
(`convert_epub_to_pdf` catches only `CalledProcessError`). On the EPUB
branch the later `os.remove` failure is caught (`except OSError`). -/
def extract_cover_image (env : CoverEnv) (file_path : String) : Except Unit (Option ℕ) :=
  let fpLower := pyLower file_path
  if pyEndsWith fpLower ".pdf" then
    Except.ok (extract_pdf_cover env.docs file_path)
  else if pyEndsWith fpLower ".epub" then
    match env.conv with
    | ConvOutcome.launchFail => Except.error ()
    | _ => Except.ok (extract_pdf_cover env.docsAfterConv (epubTempPdfPath file_path))
  else
    Except.ok none

/-- A filesystem write or delete performed by the cover pipeline,
identified by the affected path. -/
inductive FsEv
  | write (p : String)
  | removeFile (p : String)
deriving DecidableEq, Repr

/-- The disk traffic of `extract_cover_image` outside the asset
directory, in program order: the PDF branch and unrecognized extensions
touch nothing; the EPUB branch has `ebook-convert` write the derived
temporary path (when it runs successfully) and then calls `os.remove` on
that same path (skipped only when the launch failure raised first). -/
def extract_cover_events (env : CoverEnv) (file_path : String) : List FsEv :=
  let fpLower := pyLower file_path
  if pyEndsWith fpLower ".pdf" then []
  else if pyEndsWith fpLower ".epub" then
    match env.conv with
    | ConvOutcome.launchFail => []
    | ConvOutcome.exitFail => [FsEv.removeFile (epubTempPdfPath file_path)]
    | ConvOutcome.ok =>
        [FsEv.write (epubTempPdfPath file_path), FsEv.removeFile (epubTempPdfPath file_path)]
  else []

/-! Persistence (`load_data` / `save_data`). The database file is
modelled as a parsed JSON document: `json.dump` followed by `json.load`
is the identity on the JSON value tree for the string/int data this
program stores, so serialization to text is identified with the value
tree it denotes. A file that is absent or unparseable is a separate
state of the store. -/

/-- A JSON value as this program produces and consumes it: strings,
(unbounded) integers, arrays, and objects as ordered key-value lists. -/
inductive Json
  | str (s : String)
  | int (n : ℤ)
  | arr (xs : List Json)
  | obj (kvs : List (String × Json))

/-- State of `data.json` on disk: missing, present but unparseable
(raising `json.JSONDecodeError` on load), or a parsed JSON document. -/
inductive DbFile
  | missing
  | corrupt
  | ok (j : Json)

/-- The function `load_data`: return the parsed document when the file
exists and parses; return the empty list when the file is missing or the
parse fails (the error is only printed). No validation is performed. -/
def load_data : DbFile → Json
  | DbFile.missing => Json.arr []
  | DbFile.corrupt => Json.arr []
  | DbFile.ok j => j

/-- The dictionary literal built in `MainWindow.add_entry` for an entry,
with its seven fixed keys in source order. -/
def encodeEntry (e : EntryRec) : Json :=
  Json.obj [("name", Json.str e.name), ("amount", Json.int e.amount),
    ("amount_type", Json.str e.amount_type), ("amount_done", Json.int e.amount_done),
    ("tag_task", Json.str e.tag_task), ("folder_id", Json.str e.folder_id),
    ("file_path", Json.str e.file_path)]

/-- The function `save_data`: overwrite the database file with the JSON
document denoting the collection (a `json.dump` of the list of entry
dictionaries). -/
def save_data (data : List EntryRec) : DbFile :=
  DbFile.ok (Json.arr (data.map encodeEntry))

/-- Key lookup in a JSON object, as `entry['key']` reads a dict. -/
def jLookup (kvs : List (String × Json)) (k : String) : Option Json :=
  (kvs.find? (fun p => p.1 == k)).map (fun p => p.2)

/-- Read back one entry record from its JSON object, field for field. -/
def decodeEntry : Json → Option EntryRec
  | Json.obj kvs =>
    match jLookup kvs "name", jLookup kvs "amount", jLookup kvs "amount_type",
        jLookup kvs "amount_done", jLookup kvs "tag_task", jLookup kvs "folder_id",
        jLookup kvs "file_path" with
    | some (Json.str n), some (Json.int a), some (Json.str ty), some (Json.int ad),
        some (Json.str tg), some (Json.str fid), some (Json.str fp) =>
      some ⟨n, a, ty, ad, tg, fid, fp⟩
    | _, _, _, _, _, _, _ => none
  | _ => none

/-- Read back a list of entry records from a list of JSON objects. -/
def decodeEntries : List Json → Option (List EntryRec)
  | [] => some []
  | j :: rest =>
    match decodeEntry j, decodeEntries rest with
    | some e, some es => some (e :: es)
    | _, _ => none

/-- Read back a whole collection from its JSON document. -/
def decodeCollection : Json → Option (List EntryRec)
  | Json.arr xs => decodeEntries xs
  | _ => none

/-! View logic (`refresh_ui` filtering and sorting, `filter_by_tag`,
`filter_by_type`). -/

/-- The filter state held on `MainWindow`: `current_tag`,
`current_amount_type` and `excluded_tags`. -/
structure FilterState where
  current_tag : String
  current_amount_type : String
  excluded_tags : List String
deriving DecidableEq, Repr

/-- The state set in `MainWindow.__init__`: tag "All", type "All",
exclusion set `["leisure"]`. -/
def initialFilterState : FilterState :=
  ⟨"All", "All", ["leisure"]⟩

/-- The method `filter_by_tag`: select a tag, reset the type filter to
"All", and clear the exclusion set exactly when the selected tag is
"leisure" (otherwise restore it to `["leisure"]`). -/
def filter_by_tag (tag : String) : FilterState :=
  ⟨tag, "All", if tag == "leisure" then [] else ["leisure"]⟩

/-- The method `filter_by_type`: select a type, reset the tag filter to
"All", and clear the exclusion set. -/
def filter_by_type (amount_type : String) : FilterState :=
  ⟨"All", amount_type, []⟩

/-- The membership test of the filtering loop in `refresh_ui`, clause
for clause. -/
def entryVisible (st : FilterState) (e : EntryRec) : Bool :=
  (st.current_tag == "All" || e.tag_task == st.current_tag) &&
  (st.current_amount_type == "All" || e.amount_type == st.current_amount_type) &&
  (st.current_tag == "leisure" || !(st.current_amount_type == "All") ||
    !(st.excluded_tags.contains e.tag_task))

/-- The `filtered_entries` list built by `refresh_ui`. -/
def filtered_entries (st : FilterState) (data : List EntryRec) : List EntryRec :=
  data.filter (entryVisible st)

/-- Comparison corresponding to Python's ascending order on the sort key
`(-completion_percentage, name)` used by `refresh_ui`: earlier key
exactly when the percentage is larger, ties broken by name. -/
def entryKeyLE (a b : EntryRec) : Prop :=
  completion_percentage b < completion_percentage a ∨
    (completion_percentage a = completion_percentage b ∧ pyStrLE a.name b.name = true)

instance : DecidableRel entryKeyLE := by
  intro a b
  unfold entryKeyLE
  infer_instance

/-- The `sorted_entries` list built by `refresh_ui`: the filtered
entries sorted by descending completion percentage, ties broken by
ascending name (Python `sorted` is a stable sort on the key order,
modelled by the stable `insertionSort`). -/
def sorted_entries (st : FilterState) (data : List EntryRec) : List EntryRec :=
  List.insertionSort entryKeyLE (filtered_entries st data)

/-! Entry lifecycle (`add_entry`, `update_progress`, `remove_entry`)
as transitions on an explicit application state: the in-memory
collection, the persisted collection, and the set of existing asset
directories (named by their folder id). -/

/-- The constant `ENTRIES_DIR`. -/
def ENTRIES_DIR : String := "entries"

/-- Path concatenation `os.path.join` with the POSIX separator. -/
def joinPath (a b : String) : String := a ++ "/" ++ b

/-- Python `os.path.basename` on POSIX paths: the component after the
last separator. -/
def basename (p : String) : String :=
  ⟨(p.data.reverse.takeWhile (fun c => c ≠ '/')).reverse⟩

/-- Observable state of the application: the in-memory collection
`self.data`, the collection persisted in `data.json`, and the folder
ids whose asset directory exists under `entries/`. Paths in the model
are taken to be absolute, so `os.path.abspath` is the identity. -/
structure AppState where
  data : List EntryRec
  saved : List EntryRec
  dirs : List String
deriving DecidableEq, Repr

/-- The source chosen in the "File or Folder" dialog of `add_entry`. -/
inductive SrcChoice
  | file
  | folder
deriving DecidableEq, Repr

/-- The list of folder ids present in a collection. -/
def folderIds (data : List EntryRec) : List String :=
  data.map EntryRec.folder_id

/-- The new-entry dictionary appended by `add_entry`: `amount_done` is
initialized to `0`. -/
def mkNewEntry (name : String) (amount : ℤ) (amount_type tag_task fid fpath : String) : EntryRec :=
  ⟨name, amount, amount_type, 0, tag_task, fid, fpath⟩

/-- The method `MainWindow.add_entry` as a state transition. Dialog
results are passed in: the four text/number answers with their `ok`
flags, the file-or-folder choice, the chosen source path, whether
automatic cover extraction produced an image (`coverOk`), and the
fallback image chosen in the "Select Image" dialog (`none` when the
user cancels). `f`/`fuel` drive the id-allocation loop as in
`allocFrom`; when the loop has not terminated the state is returned
unchanged. Each early `return` of the source yields the unchanged
state; the abort path (`os.rmdir`) removes the directory created by
`os.makedirs` for the fresh id. -/
def add_entry (st : AppState) (nameOk : Bool) (name : String) (amountOk : Bool) (amount : ℤ)
    (tagOk : Bool) (tag_task : String) (typeOk : Bool) (amount_type : String)
    (choiceOk : Bool) (choice : SrcChoice) (file_path : String)
    (coverOk : Bool) (fallback : Option String) (f : ℕ → ℕ) (fuel : ℕ) : AppState :=
  if !nameOk || name == "" then st
  else if !amountOk || amount ≤ 0 then st
  else if !tagOk || tag_task == "" then st
  else if !typeOk || amount_type == "" then st
  else if !choiceOk then st
  else if file_path == "" then st
  else
    match allocFrom (folderIds st.data) f 0 fuel with
    | none => st
    | some fid =>
      let dirs1 := if fid ∈ st.dirs then st.dirs else fid :: st.dirs
      match choice with
      | SrcChoice.file =>
        if coverOk then
          let e := mkNewEntry name amount amount_type tag_task fid
            (joinPath (joinPath ENTRIES_DIR fid) (basename file_path))
          { data := st.data ++ [e], saved := st.data ++ [e], dirs := dirs1 }
        else
          match fallback with
          | none => { st with dirs := dirs1.erase fid }
          | some _ =>
            let e := mkNewEntry name amount amount_type tag_task fid
              (joinPath (joinPath ENTRIES_DIR fid) (basename file_path))
            { data := st.data ++ [e], saved := st.data ++ [e], dirs := dirs1 }
      | SrcChoice.folder =>
        match fallback with
        | none => { st with dirs := dirs1.erase fid }
        | some _ =>
          let e := mkNewEntry name amount amount_type tag_task fid file_path
          { data := st.data ++ [e], saved := st.data ++ [e], dirs := dirs1 }

/-- The update loop of `update_progress`: add `value` to the
`amount_done` of the first record whose `folder_id` matches, leaving
every other record unchanged (the loop breaks after the first match). -/
def addDoneToFirst (fid : String) (value : ℤ) : List EntryRec → List EntryRec
  | [] => []
  | e :: rest =>
    if e.folder_id == fid then { e with amount_done := e.amount_done + value } :: rest
    else e :: addDoneToFirst fid value rest

/-- The method `MainWindow.update_progress` on the collection: `entry`
is the snapshot object the clicked widget holds, `value` the number
entered (`ok` assumed; a cancelled dialog trivially changes nothing).
The request is rejected, with no change, unless
`0 < value ≤ entry.amount - entry.amount_done`. -/
def update_progress (entry : EntryRec) (value : ℤ) (data : List EntryRec) : List EntryRec :=
  let remaining := entry.amount - entry.amount_done
  if value ≤ 0 ∨ remaining < value then data
  else addDoneToFirst entry.folder_id value data

/-- A side effect performed by `remove_entry` after the in-memory
record is dropped, in program order. -/
inductive RmEv
  | persist (data : List EntryRec)
  | rmtree (fid : String)
deriving DecidableEq, Repr

/-- The method `MainWindow.remove_entry` with the confirmation answer
and the outcome of `shutil.rmtree` as parameters. It returns the
resulting state, the ordered side effects, and whether an exception
escaped: the record is filtered out of `self.data`, the collection is
persisted, and only then is the asset directory deleted; `rmtree` is
not wrapped in any handler, so its failure raises after the first two
effects are already done. -/
def remove_entry (st : AppState) (fid : String) (confirm : Bool) (rmtreeFails : Bool) :
    AppState × List RmEv × Bool :=
  if confirm then
    let data1 := st.data.filter (fun e => !(e.folder_id == fid))
    let dirs1 := if rmtreeFails then st.dirs else st.dirs.erase fid
    (⟨data1, data1, dirs1⟩, [RmEv.persist data1, RmEv.rmtree fid], rmtreeFails)
  else (st, [], false)

/-- One user-level mutation of the collection, for reasoning about
arbitrary operation sequences. -/
inductive Op
  | create (name : String) (amount : ℤ) (tag_task amount_type : String)
      (choice : SrcChoice) (file_path : String) (coverOk : Bool)
      (fallback : Option String) (f : ℕ → ℕ) (fuel : ℕ)
  | remove (fid : String) (confirm : Bool) (rmtreeFails : Bool)

/-- Apply one operation to the application state. -/
def applyOp (st : AppState) : Op → AppState
  | Op.create name amount tag ty choice fp coverOk fb f fuel =>
    add_entry st true name true amount true tag true ty true choice fp coverOk fb f fuel
  | Op.remove fid confirm rmtreeFails =>
    (remove_entry st fid confirm rmtreeFails).1

/-- Apply a sequence of operations from left to right. -/
def applyOps (st : AppState) : List Op → AppState
  | [] => st
  | op :: rest => applyOps (applyOp st op) rest

/-! Helper lemmas about the embedded definitions. -/

theorem charListLE_total : ∀ l1 l2 : List Char,
    charListLE l1 l2 = true ∨ charListLE l2 l1 = true := by
  intro l1
  induction l1 with
  | nil => intro l2; exact Or.inl rfl
  | cons c cs ih =>
    intro l2
    cases l2 with
    | nil => exact Or.inr rfl
    | cons d ds =>
      by_cases hcd : c = d
      · subst hcd
        simpa [charListLE] using ih ds
      · rcases lt_trichotomy c d with h | h | h
        · exact Or.inl (by simp [charListLE, hcd, h])
        · exact absurd h hcd
        · exact Or.inr (by simp [charListLE, Ne.symm hcd, h])

theorem charListLE_trans : ∀ {l1 l2 l3 : List Char},
    charListLE l1 l2 = true → charListLE l2 l3 = true → charListLE l1 l3 = true := by
  intro l1
  induction l1 with
  | nil => intro l2 l3 _ _; rfl
  | cons c cs ih =>
    intro l2 l3 h12 h23
    cases l2 with
    | nil => simp [charListLE] at h12
    | cons d ds =>
      cases l3 with
      | nil => simp [charListLE] at h23
      | cons e es =>
        by_cases hcd : c = d
        · subst hcd
          by_cases hce : c = e
          · subst hce
            simp only [charListLE, if_pos rfl] at h12 h23 ⊢
            exact ih h12 h23
          · simp only [charListLE, if_pos rfl] at h12
            simpa [charListLE, hce] using h23
        · by_cases hde : d = e
          · subst hde
            simpa [charListLE, fun h => hcd (h : c = d)] using h12
          · simp only [charListLE, if_neg hcd, decide_eq_true_eq] at h12
            simp only [charListLE, if_neg hde, decide_eq_true_eq] at h23
            have hce : c < e := lt_trans h12 h23
            have : c ≠ e := fun h => absurd (h ▸ hce) (lt_irrefl c)
            simp [charListLE, this, hce]

instance : IsTotal EntryRec entryKeyLE := by
  constructor
  intro a b
  rcases lt_trichotomy (completion_percentage a) (completion_percentage b) with h | h | h
  · exact Or.inr (Or.inl h)
  · rcases charListLE_total a.name.data b.name.data with hn | hn
    · exact Or.inl (Or.inr ⟨h, hn⟩)
    · exact Or.inr (Or.inr ⟨h.symm, hn⟩)
  · exact Or.inl (Or.inl h)

instance : IsTrans EntryRec entryKeyLE := by
  constructor
  intro a b c hab hbc
  rcases hab with h1 | ⟨h1, h1n⟩ <;> rcases hbc with h2 | ⟨h2, h2n⟩
  · exact Or.inl (lt_trans h2 h1)
  · exact Or.inl (h2 ▸ h1)
  · exact Or.inl (h1 ▸ h2)
  · exact Or.inr ⟨h1.trans h2, charListLE_trans h1n h2n⟩

theorem decodeEntry_encodeEntry (e : EntryRec) : decodeEntry (encodeEntry e) = some e := rfl

theorem decodeCollection_map_encode (l : List EntryRec) :
    decodeCollection (Json.arr (l.map encodeEntry)) = some l := by
  induction l with
  | nil => rfl
  | cons e rest ih =>
    simp only [decodeCollection, List.map_cons, decodeEntries, decodeEntry_encodeEntry] at ih ⊢
    simp [ih]

theorem allocFrom_fresh {ids : List String} {f : ℕ → ℕ} :
    ∀ {fuel i s}, allocFrom ids f i fuel = some s →
      s ∉ ids ∧ ∃ n, s = genCandidate (f n) := by
  intro fuel
  induction fuel with
  | zero => intro i s h; exact absurd h (by simp [allocFrom])
  | succ fuel ih =>
    intro i s h
    rw [allocFrom] at h
    by_cases hc : genCandidate (f i) ∈ ids
    · rw [if_pos hc] at h
      exact ih h
    · rw [if_neg hc] at h
      cases h
      exact ⟨hc, i, rfl⟩

theorem add_entry_data_shape (st : AppState) (nameOk : Bool) (name : String) (amountOk : Bool)
    (amount : ℤ) (tagOk : Bool) (tag_task : String) (typeOk : Bool) (amount_type : String)
    (choiceOk : Bool) (choice : SrcChoice) (file_path : String) (coverOk : Bool)
    (fallback : Option String) (f : ℕ → ℕ) (fuel : ℕ) :
    (add_entry st nameOk name amountOk amount tagOk tag_task typeOk amount_type choiceOk choice
        file_path coverOk fallback f fuel).data = st.data ∨
    (0 < amount ∧ ∃ fid fpath, allocFrom (folderIds st.data) f 0 fuel = some fid ∧
      (add_entry st nameOk name amountOk amount tagOk tag_task typeOk amount_type choiceOk choice
          file_path coverOk fallback f fuel).data
        = st.data ++ [mkNewEntry name amount amount_type tag_task fid fpath]) := by
  unfold add_entry
  split
  · exact Or.inl rfl
  next hguard1 =>
  split
  · exact Or.inl rfl
  next hguard2 =>
  have hamount : 0 < amount := by
    simp only [Bool.or_eq_true, Bool.not_eq_eq_eq_not, Bool.not_true, decide_eq_true_eq,
      not_or] at hguard2
    omega
  split
  · exact Or.inl rfl
  split
  · exact Or.inl rfl
  split
  · exact Or.inl rfl
  split
  · exact Or.inl rfl
  split
  · exact Or.inl rfl
  next fid halloc =>
  cases choice with
  | file =>
    by_cases hcov : coverOk
    · simp only [hcov, if_pos]
      exact Or.inr ⟨hamount, fid, _, halloc, rfl⟩
    · simp only [hcov, if_neg, Bool.false_eq_true]
      cases fallback with
      | none => exact Or.inl rfl
      | some img => exact Or.inr ⟨hamount, fid, _, halloc, rfl⟩
  | folder =>
    cases fallback with
    | none => exact Or.inl rfl
    | some img => exact Or.inr ⟨hamount, fid, _, halloc, rfl⟩

/-- Data-model invariant of §3: every record satisfies
`0 <= amount_done <= amount`. -/
def DoneInRange (data : List EntryRec) : Prop :=
  ∀ e ∈ data, 0 ≤ e.amount_done ∧ e.amount_done ≤ e.amount

instance (data : List EntryRec) : Decidable (DoneInRange data) := by
  unfold DoneInRange
  infer_instance

theorem addDoneToFirst_inrange (fid : String) (value : ℤ) :
    ∀ data : List EntryRec, DoneInRange data → 0 < value →
      (∀ r ∈ data, r.folder_id = fid → value ≤ r.amount - r.amount_done) →
      DoneInRange (addDoneToFirst fid value data) := by
  intro data
  induction data with
  | nil =>
    intro _ _ _ e he
    simp [addDoneToFirst] at he
  | cons a rest ih =>
    intro hdr hv hbound
    unfold addDoneToFirst
    split
    next hbeq =>
      intro e he
      rcases List.mem_cons.mp he with rfl | hmem
      · have ha := hdr a (List.mem_cons_self a rest)
        have hb := hbound a (List.mem_cons_self a rest) (by simpa using hbeq)
        refine ⟨?_, ?_⟩ <;> dsimp <;> omega
      · exact hdr e (List.mem_cons_of_mem a hmem)
    next hbeq =>
      intro e he
      rcases List.mem_cons.mp he with rfl | hmem
      · exact hdr e (List.mem_cons_self e rest)
      · exact ih (fun r hr => hdr r (List.mem_cons_of_mem a hr)) hv
          (fun r hr hfid => hbound r (List.mem_cons_of_mem a hr) hfid) e hmem

/-! Claim theorems. -/

/-- C2: progress stays in range. Creation initializes `amount_done` to
0 and preserves `0 <= amount_done <= amount` across the whole
collection (the non-positive-amount request is rejected); an advance
preserves the invariant whenever the widget snapshot agrees with the
matching stored record; and an advance with `delta <= 0` or
`delta > amount - amount_done` is rejected with no change to any
record. -/
theorem c2_progress_invariant :
    (∀ (st : AppState) (nameOk : Bool) (name : String) (amountOk : Bool) (amount : ℤ)
       (tagOk : Bool) (tag_task : String) (typeOk : Bool) (amount_type : String)
       (choiceOk : Bool) (choice : SrcChoice) (file_path : String) (coverOk : Bool)
       (fallback : Option String) (f : ℕ → ℕ) (fuel : ℕ),
      DoneInRange st.data →
      DoneInRange (add_entry st nameOk name amountOk amount tagOk tag_task typeOk amount_type
        choiceOk choice file_path coverOk fallback f fuel).data) ∧
    (∀ (entry : EntryRec) (value : ℤ) (data : List EntryRec),
      DoneInRange data →
      (∀ r ∈ data, r.folder_id = entry.folder_id →
        r.amount = entry.amount ∧ r.amount_done = entry.amount_done) →
      DoneInRange (update_progress entry value data)) ∧
    (∀ (entry : EntryRec) (value : ℤ) (data : List EntryRec),
      value ≤ 0 ∨ entry.amount - entry.amount_done < value →
      update_progress entry value data = data) := by
  refine ⟨?_, ?_, ?_⟩
  · intro st nameOk name amountOk amount tagOk tag_task typeOk amount_type choiceOk choice
      file_path coverOk fallback f fuel hdr
    rcases add_entry_data_shape st nameOk name amountOk amount tagOk tag_task typeOk amount_type
        choiceOk choice file_path coverOk fallback f fuel with heq | ⟨hpos, fid, fpath, _, heq⟩
    · rw [heq]; exact hdr
    · rw [heq]
      intro e he
      rcases List.mem_append.mp he with hmem | hmem
      · exact hdr e hmem
      · rcases List.mem_singleton.mp hmem with rfl
        exact ⟨le_refl 0, le_of_lt hpos⟩
  · intro entry value data hdr hcons
    unfold update_progress
    dsimp only
    split
    next => exact hdr
    next hcond =>
      push_neg at hcond
      exact addDoneToFirst_inrange entry.folder_id value data hdr hcond.1
        (fun r hr hfid => by
          rcases hcons r hr hfid with ⟨ha, hd⟩
          omega)
  · intro entry value data h
    simp only [update_progress]
    rw [if_pos h]

/-- Witness for C2 at concrete inputs: a one-record collection in
range, a matching snapshot, an accepted advance of 3 out of 3
remaining, a rejected advance of 0, and a concrete creation. -/
theorem c2_witness :
    DoneInRange [(⟨"A", 5, "math", 2, "skills", "PRJ1", "/a"⟩ : EntryRec)] ∧
    (∀ r ∈ [(⟨"A", 5, "math", 2, "skills", "PRJ1", "/a"⟩ : EntryRec)],
      r.folder_id = (⟨"A", 5, "math", 2, "skills", "PRJ1", "/a"⟩ : EntryRec).folder_id →
      r.amount = (⟨"A", 5, "math", 2, "skills", "PRJ1", "/a"⟩ : EntryRec).amount ∧
      r.amount_done = (⟨"A", 5, "math", 2, "skills", "PRJ1", "/a"⟩ : EntryRec).amount_done) ∧
    DoneInRange (update_progress ⟨"A", 5, "math", 2, "skills", "PRJ1", "/a"⟩ 3
      [⟨"A", 5, "math", 2, "skills", "PRJ1", "/a"⟩]) ∧
    update_progress ⟨"A", 5, "math", 2, "skills", "PRJ1", "/a"⟩ 0
      [⟨"A", 5, "math", 2, "skills", "PRJ1", "/a"⟩]
      = [⟨"A", 5, "math", 2, "skills", "PRJ1", "/a"⟩] ∧
    DoneInRange (add_entry (AppState.mk [] [] []) true "B" true 4 true "skills" true "cs"
      true SrcChoice.folder "/dir" false (some "/img.png") (fun _ => 7) 1).data :=
  ⟨by decide, by decide,
    c2_progress_invariant.2.1 ⟨"A", 5, "math", 2, "skills", "PRJ1", "/a"⟩ 3
      [⟨"A", 5, "math", 2, "skills", "PRJ1", "/a"⟩] (by decide) (by decide),
    c2_progress_invariant.2.2 ⟨"A", 5, "math", 2, "skills", "PRJ1", "/a"⟩ 0
      [⟨"A", 5, "math", 2, "skills", "PRJ1", "/a"⟩] (Or.inl (by decide)),
    c2_progress_invariant.1 (AppState.mk [] [] []) true "B" true 4 true "skills" true "cs"
      true SrcChoice.folder "/dir" false (some "/img.png") (fun _ => 7) 1 (by decide)⟩

/-- C1: entry creation is all-or-nothing. Whenever the request reaches
the cover step with a freshly created asset directory (the allocated id
names no pre-existing directory), and either extraction fails on a file
source or the source is a directory, and the user supplies no fallback
image, `add_entry` returns the state unchanged: the directory is
removed again, no record is added, and the persisted collection is
untouched. -/
theorem c1_create_abort_atomic (st : AppState) (nameOk : Bool) (name : String)
    (amountOk : Bool) (amount : ℤ) (tagOk : Bool) (tag_task : String) (typeOk : Bool)
    (amount_type : String) (choiceOk : Bool) (choice : SrcChoice) (file_path : String)
    (coverOk : Bool) (f : ℕ → ℕ) (fuel : ℕ)
    (hfresh : ∀ fid, allocFrom (folderIds st.data) f 0 fuel = some fid → fid ∉ st.dirs)
    (hbranch : (choice = SrcChoice.file ∧ coverOk = false) ∨ choice = SrcChoice.folder) :
    add_entry st nameOk name amountOk amount tagOk tag_task typeOk amount_type choiceOk choice
      file_path coverOk none f fuel = st := by
  unfold add_entry
  split
  · rfl
  split
  · rfl
  split
  · rfl
  split
  · rfl
  split
  · rfl
  split
  · rfl
  split
  · rfl
  next fid halloc =>
  have hdirs : fid ∉ st.dirs := hfresh fid halloc
  have herase : (if fid ∈ st.dirs then st.dirs else fid :: st.dirs).erase fid = st.dirs := by
    rw [if_neg hdirs, List.erase_cons_head]
  rcases hbranch with ⟨hc, hcov⟩ | hc <;> subst hc
  · subst hcov
    dsimp only
    rw [if_neg (by simp), herase]
  · dsimp only
    rw [herase]

/-- Witness for C1 at concrete inputs: an empty state, a directory
source, no fallback image; the allocated id is fresh and the request
leaves the state untouched. -/
theorem c1_witness :
    (∀ fid, allocFrom (folderIds (AppState.mk [] [] []).data) (fun _ => 7) 0 1 = some fid →
      fid ∉ (AppState.mk [] [] []).dirs) ∧
    ((SrcChoice.folder = SrcChoice.file ∧ false = false) ∨ SrcChoice.folder = SrcChoice.folder) ∧
    add_entry (AppState.mk [] [] []) true "A" true 3 true "skills" true "cs" true
      SrcChoice.folder "/dir" false none (fun _ => 7) 1 = AppState.mk [] [] [] :=
  ⟨fun fid _ => List.not_mem_nil fid, Or.inr rfl,
    c1_create_abort_atomic (AppState.mk [] [] []) true "A" true 3 true "skills" true "cs" true
      SrcChoice.folder "/dir" false (fun _ => 7) 1
      (fun fid _ => List.not_mem_nil fid) (Or.inr rfl)⟩

/-- C3: folder ids stay pairwise distinct. Starting from any state
whose collection has pairwise distinct `folder_id`s, any sequence of
create and remove operations preserves that distinctness, because the
allocation loop only returns a candidate matching no existing entry and
removal only filters records out. -/
theorem c3_folder_ids_distinct (ops : List Op) (st : AppState)
    (h : (folderIds st.data).Nodup) : (folderIds (applyOps st ops).data).Nodup := by
  induction ops generalizing st with
  | nil => exact h
  | cons op rest ih =>
    apply ih
    cases op with
    | create n a tg ty c fp cov fb f fuel =>
      show (folderIds (add_entry st true n true a true tg true ty true c fp cov fb f fuel).data).Nodup
      rcases add_entry_data_shape st true n true a true tg true ty true c fp cov fb f fuel with
        heq | ⟨_, fid, fpath, halloc, heq⟩
      · rw [heq]; exact h
      · rw [heq]
        have hfresh : fid ∉ folderIds st.data := (allocFrom_fresh halloc).1
        simp only [folderIds, List.map_append, List.map_cons, List.map_nil, mkNewEntry]
        rw [List.nodup_append]
        exact ⟨h, List.nodup_singleton fid, by
          intro x hx hx1
          rcases List.mem_singleton.mp hx1 with rfl
          exact hfresh hx⟩
    | remove fid confirm rf =>
      show (folderIds (remove_entry st fid confirm rf).1.data).Nodup
      unfold remove_entry
      split
      · dsimp only
        exact ((List.filter_sublist st.data).map EntryRec.folder_id).nodup h
      · exact h

/-- Witness for C3 at concrete inputs: starting from the empty state, a
create followed by a remove keeps the folder ids pairwise distinct. -/
theorem c3_witness :
    (folderIds (AppState.mk [] [] []).data).Nodup ∧
    (folderIds (applyOps (AppState.mk [] [] [])
      [Op.create "A" 2 "skills" "cs" SrcChoice.folder "/dir" false (some "/img.png")
        (fun _ => 3) 1,
       Op.remove "PRJ9" true false]).data).Nodup :=
  ⟨by decide,
    c3_folder_ids_distinct
      [Op.create "A" 2 "skills" "cs" SrcChoice.folder "/dir" false (some "/img.png")
        (fun _ => 3) 1,
       Op.remove "PRJ9" true false]
      (AppState.mk [] [] []) (by decide)⟩

/-- C4 counterexample: the claim's tolerance half fails on the code.
On a concrete one-entry state, a confirmed remove whose
`shutil.rmtree` fails lets the exception escape (the raised flag of
the model is `true`): there is no handler and no warning, so the
failure is not "tolerated as an orphan, warning only". -/
theorem c4_remove_tolerance_counterexample :
    (remove_entry
      (AppState.mk [⟨"A", 2, "math", 1, "skills", "PRJ1", "/a"⟩]
        [⟨"A", 2, "math", 1, "skills", "PRJ1", "/a"⟩] ["PRJ1"])
      "PRJ1" true true).2.2 = true := by
  decide

/-- C4 amended: a confirmed remove first drops the record from the
in-memory collection, then persists the updated collection, and only
then deletes the asset directory; when the directory deletion fails
the record removal and the persistence still stand (an orphan
directory, not a corruption), but the failure propagates as an
uncaught exception instead of being logged as a warning. -/
theorem c4_remove_ordering_amended (st : AppState) (fid : String) (rmtreeFails : Bool) :
    (remove_entry st fid true rmtreeFails).1.data
      = st.data.filter (fun e => !(e.folder_id == fid)) ∧
    (remove_entry st fid true rmtreeFails).1.saved
      = (remove_entry st fid true rmtreeFails).1.data ∧
    (∀ e ∈ (remove_entry st fid true rmtreeFails).1.data, e.folder_id ≠ fid) ∧
    (remove_entry st fid true rmtreeFails).2.1
      = [RmEv.persist (remove_entry st fid true rmtreeFails).1.data, RmEv.rmtree fid] ∧
    (remove_entry st fid true rmtreeFails).2.2 = rmtreeFails := by
  refine ⟨rfl, rfl, ?_, rfl, rfl⟩
  intro e he
  simp only [remove_entry, if_pos] at he
  have := (List.mem_filter.mp he).2
  simpa using this

/-- Witness for C4 at concrete inputs: removing "PRJ1" from a
two-entry state with a failing `rmtree` leaves exactly the other
record, which indeed does not carry the removed id, and the failure
escapes. -/
theorem c4_witness :
    (⟨"B", 3, "cs", 0, "work", "PRJ2", "/b"⟩ : EntryRec) ∈
      (remove_entry
        (AppState.mk [⟨"A", 2, "math", 1, "skills", "PRJ1", "/a"⟩,
            ⟨"B", 3, "cs", 0, "work", "PRJ2", "/b"⟩]
          [⟨"A", 2, "math", 1, "skills", "PRJ1", "/a"⟩,
            ⟨"B", 3, "cs", 0, "work", "PRJ2", "/b"⟩] ["PRJ1", "PRJ2"])
        "PRJ1" true true).1.data ∧
    (⟨"B", 3, "cs", 0, "work", "PRJ2", "/b"⟩ : EntryRec).folder_id ≠ "PRJ1" ∧
    (remove_entry
        (AppState.mk [⟨"A", 2, "math", 1, "skills", "PRJ1", "/a"⟩,
            ⟨"B", 3, "cs", 0, "work", "PRJ2", "/b"⟩]
          [⟨"A", 2, "math", 1, "skills", "PRJ1", "/a"⟩,
            ⟨"B", 3, "cs", 0, "work", "PRJ2", "/b"⟩] ["PRJ1", "PRJ2"])
        "PRJ1" true true).2.2 = true :=
  ⟨by decide,
    (c4_remove_ordering_amended
      (AppState.mk [⟨"A", 2, "math", 1, "skills", "PRJ1", "/a"⟩,
          ⟨"B", 3, "cs", 0, "work", "PRJ2", "/b"⟩]
        [⟨"A", 2, "math", 1, "skills", "PRJ1", "/a"⟩,
          ⟨"B", 3, "cs", 0, "work", "PRJ2", "/b"⟩] ["PRJ1", "PRJ2"])
      "PRJ1" true).2.2.1 ⟨"B", 3, "cs", 0, "work", "PRJ2", "/b"⟩ (by decide),
    by decide⟩

/-- C5 (code-bug evidence): on the source path "/books/Novel.EPUB" the
lower-cased extension check selects the EPUB branch, yet the
case-sensitive `replace('.epub', '.pdf')` changes nothing, so the
"temporary PDF" path coincides with the source itself: the conversion
overwrites the user's original file and the cleanup `os.remove`
deletes it, contradicting the specified frame ("the original source
file is never modified or deleted"). -/
theorem c5_epub_source_deleted_bug :
    pyEndsWith (pyLower "/books/Novel.EPUB") ".epub" = true ∧
    epubTempPdfPath "/books/Novel.EPUB" = "/books/Novel.EPUB" ∧
    extract_cover_events
        (CoverEnv.mk (fun _ => none) (fun _ => none) ConvOutcome.ok) "/books/Novel.EPUB"
      = [FsEv.write "/books/Novel.EPUB", FsEv.removeFile "/books/Novel.EPUB"] :=
  ⟨by decide, by decide, by decide⟩

/-- C6 counterexample: extraction can raise to its caller. For an EPUB
input in an environment where the external `ebook-convert` command
cannot be launched (`subprocess.run` raises `FileNotFoundError`, which
`except subprocess.CalledProcessError` does not catch), the exception
escapes `extract_cover_image`. -/
theorem c6_raise_counterexample :
    extract_cover_image
      (CoverEnv.mk (fun _ => none) (fun _ => none) ConvOutcome.launchFail) "book.epub"
      = Except.error () := rfl

/-- C6 amended: cover extraction never raises except when the external
conversion command cannot be launched on an EPUB input. A PDF input
always yields the result of `extract_pdf_cover`, which is the image of
page index 0 of the opened document and reports failure (`none`) on a
zero-page, corrupt or encrypted document; any other extension yields
"no cover available" without error; and an EPUB input with a runnable
conversion command (even one exiting non-zero) returns without
raising. -/
theorem c6_extraction_amended :
    (∀ (env : CoverEnv) (p : String), pyEndsWith (pyLower p) ".pdf" = true →
      extract_cover_image env p = Except.ok (extract_pdf_cover env.docs p)) ∧
    (∀ (docs : String → Option (List ℕ)) (p : String) (pages : List ℕ),
      docs p = some pages → extract_pdf_cover docs p = pages.head?) ∧
    (∀ (docs : String → Option (List ℕ)) (p : String),
      docs p = some [] → extract_pdf_cover docs p = none) ∧
    (∀ (env : CoverEnv) (p : String), pyEndsWith (pyLower p) ".pdf" = false →
      pyEndsWith (pyLower p) ".epub" = false →
      extract_cover_image env p = Except.ok none) ∧
    (∀ (env : CoverEnv) (p : String), pyEndsWith (pyLower p) ".pdf" = false →
      pyEndsWith (pyLower p) ".epub" = true → env.conv ≠ ConvOutcome.launchFail →
      extract_cover_image env p
        = Except.ok (extract_pdf_cover env.docsAfterConv (epubTempPdfPath p))) := by
  refine ⟨?_, ?_, ?_, ?_, ?_⟩
  · intro env p hpdf
    simp [extract_cover_image, hpdf]
  · intro docs p pages hdocs
    simp [extract_pdf_cover, hdocs]
  · intro docs p hdocs
    simp [extract_pdf_cover, hdocs]
  · intro env p hpdf hepub
    simp [extract_cover_image, hpdf, hepub]
  · intro env p hpdf hepub hconv
    cases hc : env.conv with
    | launchFail => exact absurd hc hconv
    | ok => simp [extract_cover_image, hpdf, hepub, hc]
    | exitFail => simp [extract_cover_image, hpdf, hepub, hc]

/-- Witness for C6 at concrete inputs: a PDF path, a three-page
document, a zero-page document, an unrecognized extension, and an EPUB
path with a failing-but-runnable converter. -/
theorem c6_witness :
    extract_cover_image
        (CoverEnv.mk (fun _ => some [5, 6, 7]) (fun _ => some [5, 6, 7]) ConvOutcome.ok)
        "Paper.PDF"
      = Except.ok (extract_pdf_cover
          (CoverEnv.mk (fun _ => some [5, 6, 7]) (fun _ => some [5, 6, 7]) ConvOutcome.ok).docs
          "Paper.PDF") ∧
    extract_pdf_cover (fun _ => some [5, 6, 7]) "Paper.PDF" = ([5, 6, 7] : List ℕ).head? ∧
    extract_pdf_cover (fun _ => some []) "empty.pdf" = none ∧
    extract_cover_image
        (CoverEnv.mk (fun _ => some [5, 6, 7]) (fun _ => some [5, 6, 7]) ConvOutcome.ok)
        "notes.txt"
      = Except.ok none ∧
    extract_cover_image
        (CoverEnv.mk (fun _ => none) (fun _ => none) ConvOutcome.exitFail) "book.epub"
      = Except.ok (extract_pdf_cover
          (CoverEnv.mk (fun _ => none) (fun _ => none) ConvOutcome.exitFail).docsAfterConv
          (epubTempPdfPath "book.epub")) :=
  ⟨c6_extraction_amended.1
      (CoverEnv.mk (fun _ => some [5, 6, 7]) (fun _ => some [5, 6, 7]) ConvOutcome.ok)
      "Paper.PDF" (by decide),
    c6_extraction_amended.2.1 (fun _ => some [5, 6, 7]) "Paper.PDF" [5, 6, 7] rfl,
    c6_extraction_amended.2.2.1 (fun _ => some []) "empty.pdf" rfl,
    c6_extraction_amended.2.2.2.1
      (CoverEnv.mk (fun _ => some [5, 6, 7]) (fun _ => some [5, 6, 7]) ConvOutcome.ok)
      "notes.txt" (by decide) (by decide),
    c6_extraction_amended.2.2.2.2
      (CoverEnv.mk (fun _ => none) (fun _ => none) ConvOutcome.exitFail)
      "book.epub" (by decide) (by decide) (by simp)⟩

theorem natReprAux_eq_digits : ∀ (fuel n : ℕ), n ≤ fuel →
    natReprAux fuel n = ((Nat.digits 10 n).map Nat.digitChar).reverse := by
  intro fuel
  induction fuel with
  | zero =>
    intro n hn
    cases Nat.le_zero.mp hn
    simp [natReprAux]
  | succ fuel ih =>
    intro n hn
    by_cases h0 : n = 0
    · subst h0
      simp [natReprAux]
    · rw [natReprAux, if_neg h0,
        Nat.digits_def' (by norm_num : 1 < 10) (Nat.pos_of_ne_zero h0)]
      simp only [List.map_cons, List.reverse_cons]
      have hdiv : n / 10 < n := Nat.div_lt_self (Nat.pos_of_ne_zero h0) (by norm_num)
      rw [ih (n / 10) (by omega)]

theorem digits_map_digitChar_inj : ∀ l1 l2 : List ℕ,
    (∀ d ∈ l1, d < 10) → (∀ d ∈ l2, d < 10) →
    l1.map Nat.digitChar = l2.map Nat.digitChar → l1 = l2 := by
  have hchar : ∀ a, a < 10 → ∀ b, b < 10 → Nat.digitChar a = Nat.digitChar b → a = b := by
    decide
  intro l1
  induction l1 with
  | nil =>
    intro l2 _ _ h
    cases l2 with
    | nil => rfl
    | cons b t => simp at h
  | cons a t ih =>
    intro l2 h1 h2 h
    cases l2 with
    | nil => simp at h
    | cons b t2 =>
      simp only [List.map_cons, List.cons.injEq] at h
      have ha := hchar a (h1 a (List.mem_cons_self a t)) b (h2 b (List.mem_cons_self b t2)) h.1
      rw [ha, ih t2 (fun d hd => h1 d (List.mem_cons_of_mem a hd))
        (fun d hd => h2 d (List.mem_cons_of_mem b hd)) h.2]

theorem natRepr_inj_pos {a b : ℕ} (ha : 0 < a) (hb : 0 < b) (h : natRepr a = natRepr b) :
    a = b := by
  have hdata := congrArg String.data h
  rw [natRepr, natRepr, if_neg (by omega), if_neg (by omega)] at hdata
  have haux : natReprAux a a = natReprAux b b := hdata
  rw [natReprAux_eq_digits a a (le_refl a), natReprAux_eq_digits b b (le_refl b)] at haux
  have hmap := List.reverse_injective haux
  have hdig := digits_map_digitChar_inj (Nat.digits 10 a) (Nat.digits 10 b)
    (fun d hd => Nat.digits_lt_base (by norm_num) hd)
    (fun d hd => Nat.digits_lt_base (by norm_num) hd) hmap
  calc a = Nat.ofDigits 10 (Nat.digits 10 a) := (Nat.ofDigits_digits 10 a).symm
    _ = Nat.ofDigits 10 (Nat.digits 10 b) := by rw [hdig]
    _ = b := Nat.ofDigits_digits 10 b

theorem genCandidate_inj_pos {a b : ℕ} (ha : 0 < a) (hb : 0 < b)
    (h : genCandidate a = genCandidate b) : a = b := by
  have hdata := congrArg String.data h
  rw [genCandidate, genCandidate, String.data_append, String.data_append] at hdata
  exact natRepr_inj_pos ha hb (String.ext (List.append_cancel_left hdata))

/-- The pool of identifiers the allocation loop can ever draw:
`"PRJ" + str(k)` for `k` in `randint(1, 10000)`'s range. -/
def candidateList : List String := (List.range 10000).map (fun i => genCandidate (i + 1))

theorem candidateList_nodup : candidateList.Nodup := by
  apply List.Nodup.map_on
  · intro x _ y _ hxy
    have := genCandidate_inj_pos (Nat.succ_pos x) (Nat.succ_pos y) hxy
    omega
  · exact List.nodup_range 10000

theorem mem_candidateList {k : ℕ} (h1 : 1 ≤ k) (h2 : k ≤ 10000) :
    genCandidate k ∈ candidateList := by
  simp only [candidateList, List.mem_map, List.mem_range]
  exact ⟨k - 1, by omega, by congr 1; omega⟩

theorem exists_fresh_candidate (ids : List String) (h : ids.length < 10000) :
    ∃ k, 1 ≤ k ∧ k ≤ 10000 ∧ genCandidate k ∉ ids := by
  by_contra hall
  push_neg at hall
  have hsub : candidateList ⊆ ids := by
    intro s hs
    simp only [candidateList, List.mem_map, List.mem_range] at hs
    obtain ⟨i, hi, rfl⟩ := hs
    exact hall (i + 1) (by omega) (by omega)
  have hle := (candidateList_nodup.subperm hsub).length_le
  have hlen : candidateList.length = 10000 := by simp [candidateList]
  omega

theorem allocFrom_terminates (ids : List String) (f : ℕ → ℕ) :
    ∀ (fuel i : ℕ), (∃ j, j < fuel ∧ genCandidate (f (i + j)) ∉ ids) →
      ∃ s, allocFrom ids f i fuel = some s := by
  intro fuel
  induction fuel with
  | zero =>
    rintro i ⟨j, hj, _⟩
    omega
  | succ fuel ih =>
    rintro i ⟨j, hj, hfresh⟩
    rw [allocFrom]
    by_cases hc : genCandidate (f i) ∈ ids
    · rw [if_pos hc]
      apply ih
      have hj0 : j ≠ 0 := by
        rintro rfl
        rw [Nat.add_zero] at hfresh
        exact hfresh hc
      refine ⟨j - 1, by omega, ?_⟩
      have harith : i + 1 + (j - 1) = i + j := by omega
      rw [harith]
      exact hfresh
    · exact ⟨genCandidate (f i), by rw [if_neg hc]⟩

/-- C10: the allocation loop draws only candidates of the form
`"PRJ" + str(k)` with `1 <= k <= 10000`; under any fair random stream
in that range, a collection with fewer than 10000 entries always lets
the loop terminate with a fresh identifier; and any collection of
pairwise-distinct identifiers all of that form has at most 10000
entries. -/
theorem c10_alloc_termination_bound :
    (∀ (data : List EntryRec) (f : ℕ → ℕ),
      (∀ n, 1 ≤ f n ∧ f n ≤ 10000) →
      (∀ k, 1 ≤ k → k ≤ 10000 → ∃ n, f n = k) →
      data.length < 10000 →
      ∃ fuel s, allocFrom (folderIds data) f 0 fuel = some s ∧ s ∉ folderIds data ∧
        ∃ k, 1 ≤ k ∧ k ≤ 10000 ∧ s = genCandidate k) ∧
    (∀ l : List String, l.Nodup →
      (∀ s ∈ l, ∃ k, 1 ≤ k ∧ k ≤ 10000 ∧ s = genCandidate k) →
      l.length ≤ 10000) := by
  constructor
  · intro data f hrange hfair hlen
    have hidslen : (folderIds data).length < 10000 := by
      simpa [folderIds] using hlen
    obtain ⟨k, hk1, hk2, hkfresh⟩ := exists_fresh_candidate (folderIds data) hidslen
    obtain ⟨n, hn⟩ := hfair k hk1 hk2
    obtain ⟨s, hs⟩ := allocFrom_terminates (folderIds data) f (n + 1) 0
      ⟨n, by omega, by rw [Nat.zero_add, hn]; exact hkfresh⟩
    obtain ⟨hfresh2, m, hform⟩ := allocFrom_fresh hs
    exact ⟨n + 1, s, hs, hfresh2, f m, (hrange m).1, (hrange m).2, hform⟩
  · intro l hnodup hform
    have hsub : l ⊆ candidateList := by
      intro s hs
      obtain ⟨k, hk1, hk2, rfl⟩ := hform s hs
      exact mem_candidateList hk1 hk2
    have hle := (hnodup.subperm hsub).length_le
    have hlen : candidateList.length = 10000 := by simp [candidateList]
    omega

/-- Witness for C10 at concrete inputs: the cycling stream
`n % 10000 + 1` is in range and fair; from the empty collection the
loop terminates with a fresh well-formed identifier, and the
one-element identifier list `["PRJ1"]` respects the bound. -/
theorem c10_witness :
    (∀ n, 1 ≤ (fun m => m % 10000 + 1) n ∧ (fun m => m % 10000 + 1) n ≤ 10000) ∧
    (∀ k, 1 ≤ k → k ≤ 10000 → ∃ n, (fun m => m % 10000 + 1) n = k) ∧
    ([] : List EntryRec).length < 10000 ∧
    (∃ fuel s, allocFrom (folderIds []) (fun m => m % 10000 + 1) 0 fuel = some s ∧
      s ∉ folderIds [] ∧ ∃ k, 1 ≤ k ∧ k ≤ 10000 ∧ s = genCandidate k) ∧
    ["PRJ1"].Nodup ∧ ["PRJ1"].length ≤ 10000 := by
  have hrange : ∀ n : ℕ, 1 ≤ n % 10000 + 1 ∧ n % 10000 + 1 ≤ 10000 := fun n =>
    ⟨Nat.succ_le_succ (Nat.zero_le _),
      Nat.succ_le_of_lt (Nat.mod_lt n (by norm_num))⟩
  have hfair : ∀ k, 1 ≤ k → k ≤ 10000 → ∃ n : ℕ, n % 10000 + 1 = k := by
    intro k h1 h2
    refine ⟨k - 1, ?_⟩
    rw [Nat.mod_eq_of_lt (by omega)]
    omega
  refine ⟨hrange, hfair, by decide, ?_, by decide, ?_⟩
  · exact c10_alloc_termination_bound.1 [] (fun m => m % 10000 + 1) hrange hfair (by decide)
  · exact c10_alloc_termination_bound.2 ["PRJ1"] (by decide)
      (fun s hs => ⟨1, by decide, by decide, by rw [List.mem_singleton.mp hs]; decide⟩)

/-- C9: persistence round-trip. For every valid collection `x` (a list
of records with exactly the seven declared fields), `save_data x`
followed by `load_data` yields exactly the JSON document encoding `x`,
and reading that document back field for field recovers `x`. -/
theorem c9_save_load_roundtrip (x : List EntryRec) :
    load_data (save_data x) = Json.arr (x.map encodeEntry) ∧
    decodeCollection (load_data (save_data x)) = some x :=
  ⟨rfl, decodeCollection_map_encode x⟩

/-- C8: for every filter state and collection, the view's display order
is sorted by the key "descending completion percentage, ties broken by
ascending name" and is a permutation of the filtered entries; on the
concrete snapshot with percentages 50, 50, 90 and names Beta, Alpha,
Gamma, the produced order is Gamma, Alpha, Beta. -/
theorem c8_sort_order :
    (∀ (st : FilterState) (data : List EntryRec),
      List.Pairwise entryKeyLE (sorted_entries st data) ∧
      (sorted_entries st data).Perm (filtered_entries st data)) ∧
    (sorted_entries initialFilterState
      [⟨"Beta", 2, "math", 1, "skills", "PRJ1", "/b"⟩,
       ⟨"Alpha", 2, "math", 1, "skills", "PRJ2", "/a"⟩,
       ⟨"Gamma", 10, "math", 9, "skills", "PRJ3", "/g"⟩]).map EntryRec.name
      = ["Gamma", "Alpha", "Beta"] := by
  constructor
  · intro st data
    exact ⟨List.sorted_insertionSort entryKeyLE (filtered_entries st data),
      List.perm_insertionSort entryKeyLE (filtered_entries st data)⟩
  · have hfil : filtered_entries initialFilterState
        [⟨"Beta", 2, "math", 1, "skills", "PRJ1", "/b"⟩,
         ⟨"Alpha", 2, "math", 1, "skills", "PRJ2", "/a"⟩,
         ⟨"Gamma", 10, "math", 9, "skills", "PRJ3", "/g"⟩] =
        [⟨"Beta", 2, "math", 1, "skills", "PRJ1", "/b"⟩,
         ⟨"Alpha", 2, "math", 1, "skills", "PRJ2", "/a"⟩,
         ⟨"Gamma", 10, "math", 9, "skills", "PRJ3", "/g"⟩] := by decide
    have hAG : ¬ entryKeyLE ⟨"Alpha", 2, "math", 1, "skills", "PRJ2", "/a"⟩
        ⟨"Gamma", 10, "math", 9, "skills", "PRJ3", "/g"⟩ := by
      unfold entryKeyLE
      norm_num [completion_percentage]
    have hBG : ¬ entryKeyLE ⟨"Beta", 2, "math", 1, "skills", "PRJ1", "/b"⟩
        ⟨"Gamma", 10, "math", 9, "skills", "PRJ3", "/g"⟩ := by
      unfold entryKeyLE
      norm_num [completion_percentage]
    have hBA : ¬ entryKeyLE ⟨"Beta", 2, "math", 1, "skills", "PRJ1", "/b"⟩
        ⟨"Alpha", 2, "math", 1, "skills", "PRJ2", "/a"⟩ := by
      unfold entryKeyLE
      norm_num [completion_percentage]
      decide
    unfold sorted_entries
    rw [hfil]
    simp [List.insertionSort, List.orderedInsert, hAG, hBG, hBA]

/-- C7: with the default filter state (tag "All", type "All") every
entry whose tag lies in the exclusion set is absent from the view (in
particular a "leisure" entry under the default exclusion set); after
`filter_by_tag "leisure"` every "leisure" entry is present; and a type
filter other than "All" bypasses the exclusion set entirely. -/
theorem c7_exclusion_filter :
    (∀ (excl : List String) (data : List EntryRec) (e : EntryRec),
      e ∈ data → e.tag_task ∈ excl →
        e ∉ filtered_entries ⟨"All", "All", excl⟩ data) ∧
    (∀ (data : List EntryRec) (e : EntryRec),
      e ∈ data → e.tag_task = "leisure" →
        e ∉ filtered_entries initialFilterState data) ∧
    (∀ (data : List EntryRec) (e : EntryRec),
      e ∈ data → e.tag_task = "leisure" →
        e ∈ filtered_entries (filter_by_tag "leisure") data) ∧
    (∀ (ty : String) (excl : List String) (data : List EntryRec) (e : EntryRec),
      ty ≠ "All" → e ∈ data → e.amount_type = ty →
        e ∈ filtered_entries ⟨"All", ty, excl⟩ data) := by
  refine ⟨?_, ?_, ?_, ?_⟩
  · intro excl data e hmem htag hcontra
    rw [filtered_entries, List.mem_filter] at hcontra
    have hvis := hcontra.2
    simp [entryVisible, htag] at hvis
  · intro data e hmem htag hcontra
    rw [filtered_entries, List.mem_filter] at hcontra
    have hvis := hcontra.2
    simp [entryVisible, initialFilterState, htag] at hvis
  · intro data e hmem htag
    rw [filtered_entries, List.mem_filter]
    refine ⟨hmem, ?_⟩
    simp [entryVisible, filter_by_tag, htag]
  · intro ty excl data e hty hmem htype
    rw [filtered_entries, List.mem_filter]
    refine ⟨hmem, ?_⟩
    simp [entryVisible, htype, hty]

/-- Witness for C7 at concrete inputs: a single "leisure"-tagged entry
is hidden in the default view, hidden under any "All"/"All" state with
it in the exclusion set, shown after explicitly filtering by tag
"leisure", and shown under a type filter "fun" despite the exclusion
set. -/
theorem c7_witness :
    (⟨"L", 2, "fun", 0, "leisure", "PRJ1", "/l"⟩ : EntryRec) ∈
      [(⟨"L", 2, "fun", 0, "leisure", "PRJ1", "/l"⟩ : EntryRec)] ∧
    (⟨"L", 2, "fun", 0, "leisure", "PRJ1", "/l"⟩ : EntryRec).tag_task ∈ ["leisure"] ∧
    (⟨"L", 2, "fun", 0, "leisure", "PRJ1", "/l"⟩ : EntryRec) ∉
      filtered_entries ⟨"All", "All", ["leisure"]⟩
        [⟨"L", 2, "fun", 0, "leisure", "PRJ1", "/l"⟩] ∧
    (⟨"L", 2, "fun", 0, "leisure", "PRJ1", "/l"⟩ : EntryRec) ∉
      filtered_entries initialFilterState [⟨"L", 2, "fun", 0, "leisure", "PRJ1", "/l"⟩] ∧
    (⟨"L", 2, "fun", 0, "leisure", "PRJ1", "/l"⟩ : EntryRec) ∈
      filtered_entries (filter_by_tag "leisure")
        [⟨"L", 2, "fun", 0, "leisure", "PRJ1", "/l"⟩] ∧
    (⟨"L", 2, "fun", 0, "leisure", "PRJ1", "/l"⟩ : EntryRec) ∈
      filtered_entries ⟨"All", "fun", ["leisure"]⟩
        [⟨"L", 2, "fun", 0, "leisure", "PRJ1", "/l"⟩] :=
  ⟨by decide, by decide,
    c7_exclusion_filter.1 ["leisure"] [⟨"L", 2, "fun", 0, "leisure", "PRJ1", "/l"⟩]
      ⟨"L", 2, "fun", 0, "leisure", "PRJ1", "/l"⟩ (by decide) (by decide),
    c7_exclusion_filter.2.1 [⟨"L", 2, "fun", 0, "leisure", "PRJ1", "/l"⟩]
      ⟨"L", 2, "fun", 0, "leisure", "PRJ1", "/l"⟩ (by decide) rfl,
    c7_exclusion_filter.2.2.1 [⟨"L", 2, "fun", 0, "leisure", "PRJ1", "/l"⟩]
      ⟨"L", 2, "fun", 0, "leisure", "PRJ1", "/l"⟩ (by decide) rfl,
    c7_exclusion_filter.2.2.2 "fun" ["leisure"]
      [⟨"L", 2, "fun", 0, "leisure", "PRJ1", "/l"⟩]
      ⟨"L", 2, "fun", 0, "leisure", "PRJ1", "/l"⟩ (by decide) (by decide) rfl⟩

end PyLibrary
